import Mathlib

/-!
Verification of the temporal sampling / trimming core of RTI-Helper.

The Python sources are shallowly embedded: Python floats are modelled as
exact rationals (`ℚ`), Python unbounded ints as `ℤ`/`ℕ`, fallible
operations as `Option`/`Except`, and filesystem paths as a record of
directory, stem and extension.  Each definition below names the source
function it embeds (file and symbol).
-/

/-- Embeds `VideoProcessor.is_timestamp_valid` (video_processing.py):
`0 <= timestamp <= video_duration`, returned as a boolean. -/
def is_timestamp_valid (timestamp video_duration : ℚ) : Bool :=
  decide (0 ≤ timestamp) && decide (timestamp ≤ video_duration)

/-- Two-digit zero-padded rendering of a numeric time field, as produced by
Python `strftime` directives `%H`/`%M`/`%S`. -/
def pad2 (n : ℕ) : String :=
  if n < 10 then "0" ++ toString n else toString n

/-- Embeds `VideoProcessor.format_seconds_to_hhmmss` (video_processing.py).
The source computes `(datetime.min + timedelta(seconds=seconds)).time()`,
i.e. the time of day reached `seconds` seconds after midnight, which for a
nonnegative integer input (within `datetime`'s range) is `seconds mod 86400`;
it then renders `"%H:%M:%S"` when the hour is positive, else `"%M:%S"`. -/
def format_seconds_to_hhmmss (seconds : ℕ) : String :=
  let t := seconds % 86400
  let h := t / 3600
  let m := t % 3600 / 60
  let s := t % 60
  if h > 0 then pad2 h ++ ":" ++ pad2 m ++ ":" ++ pad2 s
  else pad2 m ++ ":" ++ pad2 s

/-- Python `int()` applied to a rational: truncation toward zero. -/
def pyInt (q : ℚ) : ℤ :=
  if 0 ≤ q then ⌊q⌋ else ⌈q⌉

/-- Embeds `VideoProcessor.validate_frame_capture_interval`
(video_processing.py).  Returns the (possibly adjusted) interval together
with the warning event the source logs on adjustment, carrying the original
and the adjusted values (`none` when no warning is emitted). -/
def validate_frame_capture_interval (frame_rate frame_capture_interval : ℚ) :
    ℚ × Option (ℚ × ℚ) :=
  let min_interval := 1 / frame_rate
  if frame_capture_interval < min_interval then
    let adjusted_interval :=
      ((pyInt (frame_capture_interval / min_interval) : ℚ) + 1) * min_interval
    (adjusted_interval, some (frame_capture_interval, adjusted_interval))
  else
    (frame_capture_interval, none)

/-- Embeds `VideoProcessor.prepare_frame_capture_timestamps`
(video_processing.py): candidate instants `start + i*interval` for
`i < num_frame_captures`, where `start` is centered on `timestamp` (odd
count: exact center; even count: centered between two captures), filtered
by `is_timestamp_valid`, then `sorted(list(set(...)))` — modelled as
`dedup` followed by insertion sort. -/
def prepare_frame_capture_timestamps (timestamp video_duration : ℚ)
    (num_frame_captures : ℕ) (interval : ℚ) : List ℚ :=
  let half_count : ℕ := num_frame_captures / 2
  let start_timestamp : ℚ :=
    if num_frame_captures % 2 = 0 then
      timestamp - interval * ((half_count : ℚ) - 1/2)
    else
      timestamp - interval * (half_count : ℚ)
  let timestamps : List ℚ :=
    (List.range num_frame_captures).filterMap (fun (i : ℕ) =>
      let current_timestamp := start_timestamp + (i : ℚ) * interval
      if is_timestamp_valid current_timestamp video_duration then
        some current_timestamp
      else none)
  List.insertionSort (· ≤ ·) timestamps.dedup

/-- Embeds `VideoProcessor.calculate_time_offsets` (video_processing.py):
clamped video and audio trim windows, returned as
`(video_start, video_end, audio_start, audio_end)`. -/
def calculate_time_offsets (timestamp video_duration start_offset_seconds
    end_offset_seconds start_audio_offset_seconds end_audio_offset_seconds : ℚ) :
    ℚ × ℚ × ℚ × ℚ :=
  let video_start_time := max 0 (timestamp - start_offset_seconds)
  let video_end_time := min (timestamp + end_offset_seconds) video_duration
  let audio_start_time := max 0 (timestamp - start_audio_offset_seconds)
  let audio_end_time := min (timestamp + end_audio_offset_seconds) video_duration
  (video_start_time, video_end_time, audio_start_time, audio_end_time)

/-- The colon-separated fields of a character list (the fields between the
literal `:` separators of the `strptime` patterns `"%H:%M:%S"`/`"%M:%S"`).
Always nonempty; splitting `"a:b"` yields `[['a'], ['b']]`. -/
def colonFields : List Char → List (List Char)
  | [] => [[]]
  | c :: rest =>
    match colonFields rest with
    | f :: fs => if c = ':' then [] :: f :: fs else (c :: f) :: fs
    | [] => [[]]

/-- The numeric value of a digit list, most significant first. -/
def digitsVal (cs : List Char) : ℕ :=
  cs.foldl (fun acc c => acc * 10 + (c.toNat - 48)) 0

/-- One numeric field of a `strptime` pattern: one or two ASCII digits whose
value is at most `hi`.  For `%H`, `hi = 23`; for `%M` and `%S`, `hi = 59`
(CPython's `_strptime` regexes admit one or two digits; seconds values 60 and
61 pass the regex but are rejected by the `datetime` constructor, which the
caller catches like a format mismatch, so the net bound on `%S` is 59). -/
def fieldVal (cs : List Char) (hi : ℕ) : Option ℕ :=
  if 1 ≤ cs.length ∧ cs.length ≤ 2 ∧ cs.all Char.isDigit then
    if digitsVal cs ≤ hi then some (digitsVal cs) else none
  else none

/-- The value of `datetime.strptime(s, "%H:%M:%S")` in seconds, given the
colon-separated fields of `s`: exactly three fields, hours at most 23,
minutes and seconds at most 59. -/
def hmsValue : List (List Char) → Option ℕ
  | [h, m, s] =>
    match fieldVal h 23, fieldVal m 59, fieldVal s 59 with
    | some hv, some mv, some sv => some (hv * 3600 + mv * 60 + sv)
    | _, _, _ => none
  | _ => none

/-- The value of `datetime.strptime(s, "%M:%S")` in seconds, given the
colon-separated fields of `s`: exactly two fields, each at most 59. -/
def msValue : List (List Char) → Option ℕ
  | [m, s] =>
    match fieldVal m 59, fieldVal s 59 with
    | some mv, some sv => some (mv * 60 + sv)
    | _, _ => none
  | _ => none

/-- Parsing `s` with the first allowed format, `"%H:%M:%S"`. -/
def strptime_hhmmss (s : String) : Option ℕ := hmsValue (colonFields s.data)

/-- Parsing `s` with the second allowed format, `"%M:%S"`. -/
def strptime_mmss (s : String) : Option ℕ := msValue (colonFields s.data)

/-- Embeds `valid_time` (cli.py): tries `"%H:%M:%S"` then `"%M:%S"`, returns
`hour*3600 + minute*60 + second`; `none` stands for the source raising
`InvalidTimeError` when neither format matches. -/
def valid_time (s : String) : Option ℕ :=
  match strptime_hhmmss s with
  | some seconds => some seconds
  | none => strptime_mmss s

/-- Modelled from the claim's words, for comparison with the source
functions: the canonical rendering of a valid time string, given its
colon-separated fields — two-digit fields, written `"HH:MM:SS"` when the
hour component is nonzero, else `"MM:SS"`. -/
def canonOfFields : List (List Char) → Option String
  | [h, m, sec] =>
    match fieldVal h 23, fieldVal m 59, fieldVal sec 59 with
    | some hv, some mv, some sv =>
      some (if hv ≠ 0 then pad2 hv ++ ":" ++ pad2 mv ++ ":" ++ pad2 sv
            else pad2 mv ++ ":" ++ pad2 sv)
    | _, _, _ => none
  | [m, sec] =>
    match fieldVal m 59, fieldVal sec 59 with
    | some mv, some sv => some (pad2 mv ++ ":" ++ pad2 sv)
    | _, _ => none
  | _ => none

/-- Modelled from the claim's words: the canonical rendering of a valid
time string. -/
def canonicalRendering (s : String) : Option String :=
  canonOfFields (colonFields s.data)

/-- A filesystem path as the sources use it through `pathlib.Path`: parent
directory, stem, and suffix (the extension, with its leading dot). -/
structure FsPath where
  dir : String
  stem : String
  ext : String
deriving DecidableEq, Repr

/-- Embeds the artifact tracking the sources perform with
`self.created_files.append(path)` (`VideoProcessor.__init__` initialises
`created_files = []`; `create_frame_captures`, `run_ffmpeg_trim_video`,
`run_ffmpeg_trim_audio` and `generate_cheat_sheet` append to it). -/
def track_created_file (created_files : List FsPath) (path : FsPath) : List FsPath :=
  created_files ++ [path]

/-- Errors of exceptions.py that the embedded fragments raise. -/
inductive RTIError where
  | ffmpegVideoTrimError (msg : String)
  | ffmpegAudioTrimError (msg : String)
  | fileManagementError (msg : String)
deriving DecidableEq, Repr

/-- Embeds `VideoProcessor.run_ffmpeg_trim_audio` (video_processing.py).
The external engine invocation is abstracted as its outcome: `Except.ok ()`
for success, `Except.error stderr` for an `ffmpeg.Error` carrying the
engine's diagnostic stream.  On success the output file is tracked; on
engine failure the source raises `FileManagementError` wrapping the
diagnostic (it imports `FFmpegAudioTrimError` but never raises it). -/
def run_ffmpeg_trim_audio (created_files : List FsPath)
    (trimmed_audio_filename : FsPath) (engine : Except String Unit) :
    Except RTIError (List FsPath) :=
  match engine with
  | .ok _ => .ok (track_created_file created_files trimmed_audio_filename)
  | .error stderr =>
      .error (.fileManagementError ("FFmpeg audio trimming error: " ++ stderr))

/-- Whether a tracked file is an audio artifact, per the suffix test of
`rename_files_with_vrn` (file_management.py). -/
def isAudioFile (f : FsPath) : Bool :=
  f.ext == ".wav" || f.ext == ".mp3" || f.ext == ".aac"

/-- The recursion of `rename_files_with_vrn` (file_management.py) over the
tracked files, carrying the running frame-capture index; returns
(new filenames, deleted audio files).  `.mp4` files are renamed to
`{vrn}{suffix}`, `.jpg` files to `{vrn}_frame_{index}{suffix}` with the
index incremented per `.jpg` encountered, audio files are unlinked (second
component) and skipped, and any other file is kept unchanged. -/
def renameGo (actual_vrn : String) : List FsPath → ℕ → List FsPath × List FsPath
  | [], _ => ([], [])
  | f :: rest, frame_capture_index =>
    if f.ext = ".mp4" then
      let r := renameGo actual_vrn rest frame_capture_index
      (⟨f.dir, actual_vrn, f.ext⟩ :: r.1, r.2)
    else if f.ext = ".jpg" then
      let r := renameGo actual_vrn rest (frame_capture_index + 1)
      (⟨f.dir, actual_vrn ++ "_frame_" ++ toString frame_capture_index, f.ext⟩ :: r.1, r.2)
    else if isAudioFile f then
      let r := renameGo actual_vrn rest frame_capture_index
      (r.1, f :: r.2)
    else
      let r := renameGo actual_vrn rest frame_capture_index
      (f :: r.1, r.2)

/-- Embeds `rename_files_with_vrn` (file_management.py): the returned new
filename list together with the audio files deleted from disk.  The frame
capture counter starts at 1.  (The source also builds a sorted `frame_captures`
list, but never uses it; renames are modelled as succeeding — an `OSError`
raises `FileManagementError`, outside these claims.) -/
def rename_files_with_vrn (created_files : List FsPath) (actual_vrn : String) :
    List FsPath × List FsPath :=
  renameGo actual_vrn created_files 1

/-- The renamed artifact at position `i` of the tracked list, stated by
index (the claim's view): `.mp4` becomes `{vrn}{ext}`, the `.jpg` at
position `i` becomes `{vrn}_frame_{k}{ext}` where `k` is `base` plus the
number of `.jpg` entries strictly before position `i` (original capture
order), audio disappears, anything else is kept. -/
def specFun (files : List FsPath) (vrn : String) (base : ℕ) (i : ℕ) : Option FsPath :=
  match files[i]? with
  | none => none
  | some f =>
    if f.ext = ".mp4" then some ⟨f.dir, vrn, f.ext⟩
    else if f.ext = ".jpg" then
      some ⟨f.dir, vrn ++ "_frame_" ++
        toString (base + (files.take i).countP (fun g => g.ext == ".jpg")), f.ext⟩
    else if isAudioFile f then none
    else some f

/-- The index-based rename specification over a whole tracked list. -/
def renameSpecAt (files : List FsPath) (vrn : String) (base : ℕ) : List FsPath :=
  (List.range files.length).filterMap (specFun files vrn base)

/-- Python `str.strip()`: drop whitespace from both ends. -/
def stripChars (cs : List Char) : List Char :=
  ((cs.dropWhile Char.isWhitespace).reverse.dropWhile Char.isWhitespace).reverse

/-- Whether a cleanup confirmation reply is affirmative:
`input(...).strip().lower() in ['', 'y', 'yes']` (utils.py `cleanup`). -/
def isAffirmative (reply : String) : Bool :=
  let t := (stripChars reply.data).map Char.toLower
  (t == "".data) || (t == "y".data) || (t == "yes".data)

/-- The loop of `cleanup` (utils.py) over the tracked files.  `disk` is the
set of currently existing files (deletion removes a file from it), `k`
counts the confirmation prompts already issued, and `answers` is the stream
of interactive replies.  Returns the files the loop unlinks.  A file that no
longer exists or whose parent directory is not `directory` is skipped; in
interactive mode a non-affirmative reply skips the file.  (`unlink` is
modelled as succeeding; an `OSError` is only logged by the source.) -/
def cleanupGo (directory : String) (prompt_user : Bool) (answers : ℕ → String) :
    List FsPath → List FsPath → ℕ → List FsPath
  | [], _, _ => []
  | f :: rest, disk, k =>
    if f ∉ disk ∨ f.dir ≠ directory then
      cleanupGo directory prompt_user answers rest disk k
    else if prompt_user then
      if isAffirmative (answers k) then
        f :: cleanupGo directory prompt_user answers rest (disk.filter (· ≠ f)) (k + 1)
      else
        cleanupGo directory prompt_user answers rest disk (k + 1)
    else
      f :: cleanupGo directory prompt_user answers rest (disk.filter (· ≠ f)) k

/-- Embeds `cleanup` (utils.py): the files deleted from `disk`, given the
run's tracked `created_files`, scope `directory`, and the interactive flag
`prompt_user` with its reply stream. -/
def cleanup (directory : String) (created_files : List FsPath)
    (prompt_user : Bool) (disk : List FsPath) (answers : ℕ → String) : List FsPath :=
  cleanupGo directory prompt_user answers created_files disk 0

/-! ## Claim theorems -/

/-- Claim C3: for every incident instant, duration, and pre/post offsets,
`calculate_time_offsets` returns `videoStart = max(0, incident - videoPre)`
and `videoEnd = min(incident + videoPost, duration)`, and the audio window
by the same formulas with the audio offsets; in particular `incident=5,
videoPre=10, videoPost=10, duration=100` yields the video window `(0, 15)`. -/
theorem C3_trim_window_formulas :
    (∀ timestamp video_duration pre post apre apost : ℚ,
      calculate_time_offsets timestamp video_duration pre post apre apost =
        (max 0 (timestamp - pre), min (timestamp + post) video_duration,
         max 0 (timestamp - apre), min (timestamp + apost) video_duration))
    ∧ (calculate_time_offsets 5 100 10 10 10 10).1 = 0
    ∧ (calculate_time_offsets 5 100 10 10 10 10).2.1 = 15 :=
  ⟨fun _ _ _ _ _ _ => rfl,
   by norm_num [calculate_time_offsets],
   by norm_num [calculate_time_offsets]⟩

/-- Claim C4, counterexample: at `timestamp=5, duration=100` with offsets
`videoPre = audioPre = -20`, `videoPost = audioPost = 10`, the source
raises nothing (the embedded function is total, as the source has no raise
path) and returns windows with `start = 25 > 15 = end`, violating the
TrimWindow invariant. -/
theorem C4_counterexample :
    calculate_time_offsets 5 100 (-20) 10 (-20) 10 = (25, 15, 25, 15) ∧
    ((25 : ℚ) ≤ 15) = False :=
  ⟨by norm_num [calculate_time_offsets], eq_false (by norm_num)⟩

/-- Claim C4, amended: window computation never raises any error; whenever
`0 ≤ incident ≤ duration` and all four offsets are nonnegative, the returned
video and audio windows satisfy `0 ≤ start ≤ end ≤ duration`.  (For
misconfigured offsets the source silently returns a window with
`start > end`; no `ConfigurationError` exists.) -/
theorem C4_window_invariant_amended :
    (∀ timestamp video_duration pre post apre apost : ℚ,
      0 ≤ timestamp → timestamp ≤ video_duration →
      0 ≤ pre → 0 ≤ post → 0 ≤ apre → 0 ≤ apost →
      (0 ≤ (calculate_time_offsets timestamp video_duration pre post apre apost).1 ∧
       (calculate_time_offsets timestamp video_duration pre post apre apost).1 ≤
         (calculate_time_offsets timestamp video_duration pre post apre apost).2.1 ∧
       (calculate_time_offsets timestamp video_duration pre post apre apost).2.1 ≤
         video_duration ∧
       0 ≤ (calculate_time_offsets timestamp video_duration pre post apre apost).2.2.1 ∧
       (calculate_time_offsets timestamp video_duration pre post apre apost).2.2.1 ≤
         (calculate_time_offsets timestamp video_duration pre post apre apost).2.2.2 ∧
       (calculate_time_offsets timestamp video_duration pre post apre apost).2.2.2 ≤
         video_duration))
    ∧ calculate_time_offsets 5 100 10 10 10 10 = (0, 15, 0, 15) := by
  constructor
  · intro t d pre post apre apost ht htd hpre hpost hapre hapost
    simp only [calculate_time_offsets]
    refine ⟨le_max_left 0 _, ?_, ?_, le_max_left 0 _, ?_, ?_⟩
    · apply max_le <;> apply le_min <;> linarith
    · exact min_le_right _ _
    · apply max_le <;> apply le_min <;> linarith
    · exact min_le_right _ _
  · norm_num [calculate_time_offsets]

/-- Claim C7, counterexample: tracking the path `a.jpg` twice from the empty
tracker yields `[a.jpg, a.jpg]`, not the singleton that tracking it once
yields — the second track is an unconditional append, not a no-op. -/
theorem C7_counterexample :
    (track_created_file (track_created_file [] ⟨"d", "a", ".jpg"⟩) ⟨"d", "a", ".jpg"⟩ =
      track_created_file [] ⟨"d", "a", ".jpg"⟩) = False :=
  eq_false (by decide)

/-- Claim C7, amended: artifact tracking appends unconditionally — tracking
`p` twice leaves the list `created_files ++ [p, p]`, one entry longer than
tracking `p` once, so a duplicate entry is introduced (not idempotent). -/
theorem C7_track_appends_unconditionally :
    (∀ (created_files : List FsPath) (p : FsPath),
      track_created_file (track_created_file created_files p) p =
        created_files ++ [p, p]) ∧
    (∀ (created_files : List FsPath) (p : FsPath),
      (track_created_file (track_created_file created_files p) p).length =
        created_files.length + 2 ∧
      (track_created_file created_files p).length = created_files.length + 1) := by
  constructor
  · intro l p; simp [track_created_file]
  · intro l p; simp [track_created_file]

/-- Claim C8: on engine failure during audio-window extraction the source
raises `FileManagementError` wrapping the engine's diagnostic stream —
not the dedicated `FFmpegAudioTrimError` the claim (and exceptions.py's own
docstring) prescribe; on success the output file is tracked and no error is
raised. -/
theorem C8_audio_trim_raises_file_management_error :
    run_ffmpeg_trim_audio [] ⟨"d", "clip_token_trim_audio", ".wav"⟩
        (.error "boom") =
      .error (.fileManagementError "FFmpeg audio trimming error: boom") ∧
    (∀ created_files f,
      run_ffmpeg_trim_audio created_files f (.ok ()) =
        .ok (created_files ++ [f])) :=
  ⟨rfl, fun _ _ => rfl⟩

/-- Claim C10: `format_seconds_to_hhmmss` wraps its input modulo 24 hours
(86400 s) before rendering: the output at `seconds` equals the output at
`seconds % 86400`; `90123` (= 25:02:03) renders as `"01:02:03"` and
exactly `86400` renders as `"00:00"`. -/
theorem C10_format_wraps_mod_day :
    (∀ seconds : ℕ,
      format_seconds_to_hhmmss seconds =
        format_seconds_to_hhmmss (seconds % 86400)) ∧
    format_seconds_to_hhmmss 90123 = "01:02:03" ∧
    format_seconds_to_hhmmss 86400 = "00:00" := by
  refine ⟨fun seconds => ?_, by decide, by decide⟩
  have h86 : seconds % 86400 % 86400 = seconds % 86400 := by omega
  simp only [format_seconds_to_hhmmss, h86]

/-- Claim C2: when the requested capture interval is below the minimum
interval `1/frameRate`, validation returns the smallest (positive-)multiple
of `1/frameRate` that is at least the requested interval, and emits a
warning carrying the original and adjusted values; otherwise the requested
interval is returned unchanged with no warning.  In particular
`frameRate = 25`, `requestedInterval = 0.01` yields `0.04`. -/
theorem C2_interval_validation :
    (∀ frame_rate interval : ℚ, 0 < frame_rate → 0 < interval →
      interval < 1 / frame_rate →
      ((∃ k : ℕ, (validate_frame_capture_interval frame_rate interval).1 =
          (k : ℚ) * (1 / frame_rate)) ∧
       interval ≤ (validate_frame_capture_interval frame_rate interval).1 ∧
       (∀ k : ℕ, interval ≤ (k : ℚ) * (1 / frame_rate) →
          (validate_frame_capture_interval frame_rate interval).1 ≤
            (k : ℚ) * (1 / frame_rate)) ∧
       (validate_frame_capture_interval frame_rate interval).2 =
         some (interval, (validate_frame_capture_interval frame_rate interval).1)))
    ∧ (∀ frame_rate interval : ℚ, 1 / frame_rate ≤ interval →
        validate_frame_capture_interval frame_rate interval = (interval, none))
    ∧ validate_frame_capture_interval 25 (1/100) = (1/25, some (1/100, 1/25)) := by
  refine ⟨?_, ?_, by norm_num [validate_frame_capture_interval, pyInt]⟩
  · intro fr interval hfr hpos hlt
    have hmin : 0 < 1 / fr := by positivity
    have hdiv : interval / (1 / fr) = interval * fr := by
      field_simp
    have hlt1 : interval * fr < 1 := by
      have := (div_lt_one hmin).mpr hlt
      rwa [hdiv] at this
    have hnn : 0 ≤ interval * fr := by positivity
    have hfloor : ⌊interval * fr⌋ = 0 :=
      Int.floor_eq_zero_iff.mpr ⟨hnn, hlt1⟩
    have hint : pyInt (interval / (1 / fr)) = 0 := by
      rw [hdiv, pyInt, if_pos hnn, hfloor]
    have hval : validate_frame_capture_interval fr interval =
        (1 / fr, some (interval, 1 / fr)) := by
      rw [validate_frame_capture_interval]
      simp only [if_pos hlt, hint]
      norm_num
    rw [hval]
    refine ⟨⟨1, by norm_num⟩, le_of_lt hlt, ?_, rfl⟩
    intro k hk
    match k with
    | 0 => simp only [Nat.cast_zero, zero_mul] at hk; linarith
    | (n + 1) =>
      have h1 : (1 : ℚ) ≤ ((n + 1 : ℕ) : ℚ) := by exact_mod_cast Nat.one_le_iff_ne_zero.mpr (Nat.succ_ne_zero n)
      calc 1 / fr = 1 * (1 / fr) := (one_mul _).symm
        _ ≤ ((n + 1 : ℕ) : ℚ) * (1 / fr) := by
            exact mul_le_mul_of_nonneg_right h1 (le_of_lt hmin)
  · intro fr interval hge
    rw [validate_frame_capture_interval]
    simp only [if_neg (not_lt.mpr hge)]

/-- Claim C1: for every incident instant, duration, capture count and
(already-validated) interval, `prepare_frame_capture_timestamps` returns
exactly the ascending, duplicate-free sorting of the candidate instants
`start + i*interval` (`i < count`) that lie within `[0, duration]`, where
`start = incident - interval*(count/2)` for odd `count` and
`start = incident - interval*(count/2 - 0.5)` for even `count`
(`count/2` as integer division); candidates outside the range are dropped.
In particular `count=4, interval=2, incident=50, duration=1000` yields
`[47, 49, 51, 53]` and `count=5` yields `[46, 48, 50, 52, 54]`. -/
theorem C1_frame_schedule :
    (∀ (timestamp video_duration : ℚ) (count : ℕ) (interval : ℚ),
      List.Sorted (· < ·)
        (prepare_frame_capture_timestamps timestamp video_duration count interval) ∧
      (∀ x : ℚ,
        x ∈ prepare_frame_capture_timestamps timestamp video_duration count interval ↔
        ∃ i : ℕ, i < count ∧
          x = (if count % 2 = 0 then
                 timestamp - interval * (((count / 2 : ℕ) : ℚ) - 1/2)
               else
                 timestamp - interval * ((count / 2 : ℕ) : ℚ)) + (i : ℚ) * interval ∧
          0 ≤ x ∧ x ≤ video_duration))
    ∧ prepare_frame_capture_timestamps 50 1000 4 2 = [47, 49, 51, 53]
    ∧ prepare_frame_capture_timestamps 50 1000 5 2 = [46, 48, 50, 52, 54] := by
  refine ⟨?_, ?_, ?_⟩
  · intro t d n iv
    constructor
    · have hsle : List.Sorted (· ≤ ·)
          (prepare_frame_capture_timestamps t d n iv) :=
        List.sorted_insertionSort (· ≤ ·) _
      have hnd : (prepare_frame_capture_timestamps t d n iv).Nodup :=
        ((List.perm_insertionSort _ _).nodup_iff).mpr (List.nodup_dedup _)
      exact (List.Pairwise.and hsle hnd).imp (fun hab => lt_of_le_of_ne hab.1 hab.2)
    · intro x
      simp only [prepare_frame_capture_timestamps, List.mem_insertionSort,
        List.mem_dedup, List.mem_filterMap, List.mem_range]
      constructor
      · rintro ⟨i, hi, hsome⟩
        by_cases hc : is_timestamp_valid
            ((if n % 2 = 0 then t - iv * (((n / 2 : ℕ) : ℚ) - 1/2)
              else t - iv * ((n / 2 : ℕ) : ℚ)) + (i : ℚ) * iv) d
        · rw [if_pos hc] at hsome
          have hx := Option.some.inj hsome
          simp only [is_timestamp_valid, Bool.and_eq_true, decide_eq_true_eq] at hc
          exact ⟨i, hi, hx.symm, hx ▸ hc.1, hx ▸ hc.2⟩
        · rw [if_neg hc] at hsome
          exact absurd hsome (Option.noConfusion)
      · rintro ⟨i, hi, hx, h0, hd⟩
        refine ⟨i, hi, ?_⟩
        rw [if_pos]
        · rw [hx]
        · subst hx
          simp only [is_timestamp_valid, Bool.and_eq_true, decide_eq_true_eq]
          exact ⟨h0, hd⟩
  · norm_num [prepare_frame_capture_timestamps, is_timestamp_valid, List.range_succ,
      List.filterMap_cons, List.insertionSort, List.orderedInsert,
      List.dedup_cons_of_not_mem, List.dedup_nil]
  · norm_num [prepare_frame_capture_timestamps, is_timestamp_valid, List.range_succ,
      List.filterMap_cons, List.insertionSort, List.orderedInsert,
      List.dedup_cons_of_not_mem, List.dedup_nil]

/-- Any file the cleanup loop deletes is tracked, existed on disk when the
loop reached it (hence was on the initial disk), and has the scope directory
as its parent. -/
lemma cleanupGo_mem (directory : String) (prompt_user : Bool) (answers : ℕ → String) :
    ∀ (files disk : List FsPath) (k : ℕ) (f : FsPath),
      f ∈ cleanupGo directory prompt_user answers files disk k →
      f ∈ files ∧ f ∈ disk ∧ f.dir = directory := by
  intro files
  induction files with
  | nil => intro disk k f hf; simp [cleanupGo] at hf
  | cons g rest ih =>
    intro disk k f hf
    rw [cleanupGo] at hf
    by_cases hskip : g ∉ disk ∨ g.dir ≠ directory
    · rw [if_pos hskip] at hf
      obtain ⟨h1, h2, h3⟩ := ih disk k f hf
      exact ⟨List.mem_cons_of_mem _ h1, h2, h3⟩
    · rw [if_neg hskip] at hf
      push_neg at hskip
      obtain ⟨hgdisk, hgdir⟩ := hskip
      by_cases hp : prompt_user
      · rw [if_pos hp] at hf
        by_cases ha : isAffirmative (answers k)
        · rw [if_pos ha] at hf
          rcases List.mem_cons.mp hf with hfg | hf2
          · subst hfg; exact ⟨List.mem_cons_self _ _, hgdisk, hgdir⟩
          · obtain ⟨h1, h2, h3⟩ := ih _ _ f hf2
            exact ⟨List.mem_cons_of_mem _ h1, (List.mem_filter.mp h2).1, h3⟩
        · rw [if_neg ha] at hf
          obtain ⟨h1, h2, h3⟩ := ih disk (k+1) f hf
          exact ⟨List.mem_cons_of_mem _ h1, h2, h3⟩
      · rw [if_neg hp] at hf
        rcases List.mem_cons.mp hf with hfg | hf2
        · subst hfg; exact ⟨List.mem_cons_self _ _, hgdisk, hgdir⟩
        · obtain ⟨h1, h2, h3⟩ := ih _ _ f hf2
          exact ⟨List.mem_cons_of_mem _ h1, (List.mem_filter.mp h2).1, h3⟩

/-- In non-interactive mode the loop deletes every tracked file that exists
and lives in the scope directory. -/
lemma cleanupGo_complete (directory : String) (answers : ℕ → String) :
    ∀ (files disk : List FsPath) (f : FsPath) (k : ℕ),
      f ∈ files → f ∈ disk → f.dir = directory →
      f ∈ cleanupGo directory false answers files disk k := by
  intro files
  induction files with
  | nil => intro disk f k hf; simp at hf
  | cons g rest ih =>
    intro disk f k hf hdisk hdir
    rw [cleanupGo]
    by_cases hfg : f = g
    · subst hfg
      rw [if_neg (by push_neg; exact ⟨hdisk, hdir⟩)]
      rw [if_neg Bool.false_ne_true]
      exact List.mem_cons_self _ _
    · have hfr : f ∈ rest := by
        rcases List.mem_cons.mp hf with h | h
        · exact absurd h hfg
        · exact h
      by_cases hskip : g ∉ disk ∨ g.dir ≠ directory
      · rw [if_pos hskip]
        exact ih disk f k hfr hdisk hdir
      · rw [if_neg hskip]
        rw [if_neg Bool.false_ne_true]
        refine List.mem_cons_of_mem _ (ih _ f k hfr ?_ hdir)
        exact List.mem_filter.mpr ⟨hdisk, by simp [hfg]⟩

/-- With every interactive reply empty (the affirmative default), the
interactive loop deletes exactly what the non-interactive loop deletes. -/
lemma cleanupGo_empty_answers (directory : String) (answers : ℕ → String)
    (hans : ∀ j, answers j = "") :
    ∀ (files disk : List FsPath) (k k' : ℕ),
      cleanupGo directory true answers files disk k =
        cleanupGo directory false answers files disk k' := by
  intro files
  induction files with
  | nil => intro disk k k'; rfl
  | cons g rest ih =>
    intro disk k k'
    rw [cleanupGo, cleanupGo]
    by_cases hskip : g ∉ disk ∨ g.dir ≠ directory
    · rw [if_pos hskip, if_pos hskip]
      exact ih disk k k'
    · rw [if_neg hskip, if_neg hskip]
      have haff : isAffirmative (answers k) = true := by
        rw [hans k]; decide
      rw [if_pos rfl, if_pos haff, if_neg Bool.false_ne_true]
      exact congrArg _ (ih _ (k+1) k')

/-- Claim C9: cleanup deletes only tracked files that currently exist and
whose parent directory equals the scope directory (never an out-of-scope
file, even if it exists); non-interactive mode deletes every such in-scope
file unconditionally; in interactive mode an empty reply counts as
affirmative, so all-empty replies delete exactly what non-interactive mode
deletes.  Concretely, a tracked existing file with parent `"e"` is not
deleted under scope `"d"`, while the same file with parent `"d"` is. -/
theorem C9_cleanup_scoping :
    (∀ (directory : String) (files : List FsPath) (prompt_user : Bool)
        (disk : List FsPath) (answers : ℕ → String) (f : FsPath),
      f ∈ cleanup directory files prompt_user disk answers →
      f ∈ files ∧ f ∈ disk ∧ f.dir = directory)
    ∧ (∀ (directory : String) (files disk : List FsPath) (answers : ℕ → String)
        (f : FsPath),
      f ∈ files → f ∈ disk → f.dir = directory →
      f ∈ cleanup directory files false disk answers)
    ∧ (∀ (directory : String) (files disk : List FsPath) (answers : ℕ → String),
      (∀ j, answers j = "") →
      cleanup directory files true disk answers =
        cleanup directory files false disk answers)
    ∧ cleanup "d" [⟨"e", "x", ".mp4"⟩] false [⟨"e", "x", ".mp4"⟩] (fun _ => "") = []
    ∧ cleanup "d" [⟨"d", "x", ".mp4"⟩] true [⟨"d", "x", ".mp4"⟩] (fun _ => "") =
        [⟨"d", "x", ".mp4"⟩] := by
  refine ⟨?_, ?_, ?_, by decide, by decide⟩
  · intro directory files prompt_user disk answers f hf
    exact cleanupGo_mem directory prompt_user answers files disk 0 f hf
  · intro directory files disk answers f h1 h2 h3
    exact cleanupGo_complete directory answers files disk f 0 h1 h2 h3
  · intro directory files disk answers hans
    exact cleanupGo_empty_answers directory answers hans files disk 0 0

/-- Shifting the index-based specification across the head of the list:
position `i+1` of `f :: rest` is position `i` of `rest`, with the running
frame index raised when the head is a frame capture. -/
lemma specFun_succ (f : FsPath) (rest : List FsPath) (vrn : String) (base i : ℕ) :
    specFun (f :: rest) vrn base (i + 1) =
      specFun rest vrn (base + if f.ext == ".jpg" then 1 else 0) i := by
  simp only [specFun, List.getElem?_cons_succ, List.take_succ_cons, List.countP_cons]
  cases hri : rest[i]? with
  | none => rfl
  | some g =>
    by_cases hg4 : g.ext = ".mp4"
    · simp [hg4]
    · by_cases hgj : g.ext = ".jpg"
      · have harith : base + (List.countP (fun x => x.ext == ".jpg") (List.take i rest) +
            if (f.ext == ".jpg") = true then 1 else 0) =
            base + (if f.ext == ".jpg" then 1 else 0) +
              List.countP (fun x => x.ext == ".jpg") (List.take i rest) := by
          by_cases hfj : (f.ext == ".jpg") = true
          · simp only [hfj, if_true]; omega
          · simp only [hfj, if_false]; omega
        simp only [hg4, if_false, hgj, if_true, harith]
      · simp [hg4, hgj]

/-- The recursion of the source equals the index-based specification, for
every starting frame index. -/
lemma renameGo_fst (vrn : String) :
    ∀ (files : List FsPath) (base : ℕ),
      (renameGo vrn files base).1 = renameSpecAt files vrn base := by
  intro files
  induction files with
  | nil => intro base; rfl
  | cons f rest ih =>
    intro base
    have htail :
        List.filterMap (specFun (f :: rest) vrn base ∘ Nat.succ) (List.range rest.length)
          = renameSpecAt rest vrn (base + if f.ext == ".jpg" then 1 else 0) := by
      rw [renameSpecAt]
      simp only [Function.comp_def, Nat.succ_eq_add_one, specFun_succ]
    have hhead : specFun (f :: rest) vrn base 0 =
        (if f.ext = ".mp4" then some ⟨f.dir, vrn, f.ext⟩
         else if f.ext = ".jpg" then
           some ⟨f.dir, vrn ++ "_frame_" ++ toString base, f.ext⟩
         else if isAudioFile f then none
         else some f) := by
      simp [specFun]
    rw [renameGo, renameSpecAt, List.length_cons, List.range_succ_eq_map,
      List.filterMap_cons, List.filterMap_map, htail, hhead]
    by_cases h4 : f.ext = ".mp4"
    · have hj : (f.ext == ".jpg") = false := by simp [h4]
      simp only [h4, if_true, if_pos rfl, hj, if_false, Nat.add_zero]
      rw [ih base]
      simp
    · by_cases hj : f.ext = ".jpg"
      · have hjb : (f.ext == ".jpg") = true := by simp [hj]
        simp only [h4, if_false, hj, if_true, hjb]
        rw [ih (base + 1)]
        simp
      · by_cases ha : isAudioFile f
        · have hjb : (f.ext == ".jpg") = false := by simp [hj]
          simp only [h4, if_false, hj, ha, if_true, hjb, Nat.add_zero]
          rw [ih base]
          simp
        · have hjb : (f.ext == ".jpg") = false := by simp [hj]
          simp only [h4, if_false, hj, ha, hjb, Nat.add_zero]
          rw [ih base]
          simp

/-- The deleted-files component of the rename recursion is exactly the audio
files of the tracked list, in order. -/
lemma renameGo_snd (vrn : String) :
    ∀ (files : List FsPath) (base : ℕ),
      (renameGo vrn files base).2 = files.filter (fun f => isAudioFile f) := by
  intro files
  induction files with
  | nil => intro base; rfl
  | cons f rest ih =>
    intro base
    rw [renameGo]
    by_cases h4 : f.ext = ".mp4"
    · have ha : isAudioFile f = false := by simp [isAudioFile, h4]
      simp only [h4, if_true, List.filter_cons, ha, if_false]
      exact ih base
    · by_cases hj : f.ext = ".jpg"
      · have ha : isAudioFile f = false := by simp [isAudioFile, hj]
        simp only [h4, if_false, hj, if_true, List.filter_cons, ha]
        exact ih (base + 1)
      · by_cases ha : isAudioFile f
        · simp only [h4, if_false, hj, ha, if_true, List.filter_cons]
          rw [ih base]
        · simp only [h4, if_false, hj, ha, List.filter_cons]
          rw [ih base]
          simp

/-- Claim C6: for every tracked-artifact list and resolved identifier,
renaming maps each trimmed video (`.mp4`) to `{identifier}{ext}`, each frame
capture (`.jpg`) to `{identifier}_frame_{index}{ext}` with indexes 1, 2, …
assigned in original capture order (position-based specification
`renameSpecAt · · 1`), deletes trimmed audio files from disk instead of
renaming them, and returns an updated list omitting the deleted audio.
On the claim's example the result is `[AB12CDE.mp4, AB12CDE_frame_1.jpg,
AB12CDE_frame_2.jpg]` with `audio.wav` deleted. -/
theorem C6_rename_with_identifier :
    (∀ (created_files : List FsPath) (actual_vrn : String),
      (rename_files_with_vrn created_files actual_vrn).1 =
        renameSpecAt created_files actual_vrn 1 ∧
      (rename_files_with_vrn created_files actual_vrn).2 =
        created_files.filter (fun f => isAudioFile f))
    ∧ rename_files_with_vrn
        [⟨"d", "video", ".mp4"⟩, ⟨"d", "cap_1", ".jpg"⟩, ⟨"d", "cap_2", ".jpg"⟩,
         ⟨"d", "audio", ".wav"⟩] "AB12CDE" =
        ([⟨"d", "AB12CDE", ".mp4"⟩, ⟨"d", "AB12CDE_frame_1", ".jpg"⟩,
          ⟨"d", "AB12CDE_frame_2", ".jpg"⟩], [⟨"d", "audio", ".wav"⟩]) :=
  ⟨fun files vrn => ⟨renameGo_fst vrn files 1, renameGo_snd vrn files 1⟩, by decide⟩

/-- A parsed `strptime` field never exceeds its bound. -/
lemma fieldVal_le {cs : List Char} {hi v : ℕ} (h : fieldVal cs hi = some v) : v ≤ hi := by
  rw [fieldVal] at h
  split_ifs at h with h1 h2
  exact (Option.some.inj h) ▸ h2

/-- Round trip: formatting the seconds parsed from a valid time string
recovers the string's canonical rendering. -/
lemma valid_time_roundtrip (s : String) (v : ℕ) (h : valid_time s = some v) :
    canonicalRendering s = some (format_seconds_to_hhmmss v) := by
  rw [valid_time, strptime_hhmmss, strptime_mmss] at h
  rw [canonicalRendering]
  generalize hL : colonFields s.data = L at h ⊢
  rcases L with _ | ⟨a, _ | ⟨b, _ | ⟨c, _ | ⟨e, L4⟩⟩⟩⟩
  · exact Option.noConfusion (show (none : Option ℕ) = some v from h)
  · exact Option.noConfusion (show (none : Option ℕ) = some v from h)
  · replace h : msValue [a, b] = some v := h
    rw [msValue] at h
    cases hma : fieldVal a 59 with
    | none => rw [hma] at h; exact Option.noConfusion h
    | some mv =>
      cases hmb : fieldVal b 59 with
      | none => rw [hma, hmb] at h; exact Option.noConfusion h
      | some sv =>
        rw [hma, hmb] at h
        have hv : mv * 60 + sv = v := Option.some.inj h
        have hmv : mv ≤ 59 := fieldVal_le hma
        have hsv : sv ≤ 59 := fieldVal_le hmb
        simp only [canonOfFields]
        rw [hma, hmb]
        subst hv
        have h3 : ¬ ((mv * 60 + sv) % 86400 / 3600 > 0) := by omega
        have e1 : (mv * 60 + sv) % 86400 % 3600 / 60 = mv := by omega
        have e2 : (mv * 60 + sv) % 86400 % 60 = sv := by omega
        simp only [format_seconds_to_hhmmss, if_neg h3, e1, e2]
  · cases hh : hmsValue [a, b, c] with
    | some w =>
      rw [hh] at h
      have hwv : w = v := Option.some.inj h
      subst hwv
      rw [hmsValue] at hh
      cases hma : fieldVal a 23 with
      | none => rw [hma] at hh; exact Option.noConfusion hh
      | some hv =>
        cases hmb : fieldVal b 59 with
        | none => rw [hma, hmb] at hh; exact Option.noConfusion hh
        | some mv =>
          cases hmc : fieldVal c 59 with
          | none => rw [hma, hmb, hmc] at hh; exact Option.noConfusion hh
          | some sv =>
            rw [hma, hmb, hmc] at hh
            have hveq : hv * 3600 + mv * 60 + sv = w := Option.some.inj hh
            have hhv : hv ≤ 23 := fieldVal_le hma
            have hmv : mv ≤ 59 := fieldVal_le hmb
            have hsv : sv ≤ 59 := fieldVal_le hmc
            simp only [canonOfFields]
            rw [hma, hmb, hmc]
            subst hveq
            by_cases hzero : hv = 0
            · subst hzero
              show some (if (0 : ℕ) ≠ 0 then pad2 0 ++ ":" ++ pad2 mv ++ ":" ++ pad2 sv
                   else pad2 mv ++ ":" ++ pad2 sv) =
                some (format_seconds_to_hhmmss (0 * 3600 + mv * 60 + sv))
              rw [if_neg (by omega : ¬ (0 : ℕ) ≠ 0)]
              congr 1
              have h3 : ¬ ((0 * 3600 + mv * 60 + sv) % 86400 / 3600 > 0) := by omega
              have e1 : (0 * 3600 + mv * 60 + sv) % 86400 % 3600 / 60 = mv := by omega
              have e2 : (0 * 3600 + mv * 60 + sv) % 86400 % 60 = sv := by omega
              simp only [format_seconds_to_hhmmss, if_neg h3, e1, e2]
            · show some (if hv ≠ 0 then pad2 hv ++ ":" ++ pad2 mv ++ ":" ++ pad2 sv
                   else pad2 mv ++ ":" ++ pad2 sv) =
                some (format_seconds_to_hhmmss (hv * 3600 + mv * 60 + sv))
              rw [if_pos hzero]
              congr 1
              have e0 : (hv * 3600 + mv * 60 + sv) % 86400 / 3600 = hv := by omega
              have e1 : (hv * 3600 + mv * 60 + sv) % 86400 % 3600 / 60 = mv := by omega
              have e2 : (hv * 3600 + mv * 60 + sv) % 86400 % 60 = sv := by omega
              simp only [format_seconds_to_hhmmss, e0, e1, e2]
              rw [if_pos (show hv > 0 by omega)]
    | none =>
      rw [hh] at h
      exact Option.noConfusion (show (none : Option ℕ) = some v from h)
  · exact Option.noConfusion (show (none : Option ℕ) = some v from h)

/-- Claim C5: `valid_time` tries `"HH:MM:SS"` first then `"MM:SS"`, returns
`hours*3600 + minutes*60 + seconds` as an integer, fails (raises
`InvalidTimeError`) when neither format matches, and formatting the parsed
value recovers the canonical rendering of the input (hour component nonzero
renders `"HH:MM:SS"`, else `"MM:SS"`); e.g. `"01:02:03" → 3723 →
"01:02:03"` and `"02:03" → 123 → "02:03"`. -/
theorem C5_parse_format_roundtrip :
    (∀ (s : String) (v : ℕ), valid_time s = some v →
      canonicalRendering s = some (format_seconds_to_hhmmss v))
    ∧ (∀ (s : String) (v : ℕ), strptime_hhmmss s = some v → valid_time s = some v)
    ∧ (∀ s : String, strptime_hhmmss s = none → valid_time s = strptime_mmss s)
    ∧ (∀ s : String, strptime_hhmmss s = none → strptime_mmss s = none →
        valid_time s = none)
    ∧ valid_time "01:02:03" = some 3723
    ∧ format_seconds_to_hhmmss 3723 = "01:02:03"
    ∧ valid_time "02:03" = some 123
    ∧ format_seconds_to_hhmmss 123 = "02:03"
    ∧ canonicalRendering "01:02:03" = some "01:02:03"
    ∧ canonicalRendering "02:03" = some "02:03" := by
  refine ⟨valid_time_roundtrip, ?_, ?_, ?_, by decide, by decide, by decide,
    by decide, by decide, by decide⟩
  · intro s v hs
    rw [valid_time, hs]
  · intro s hs
    rw [valid_time, hs]
  · intro s hs hm
    rw [valid_time, hs, hm]
